import Mathlib

/-!
Verification of the EnterpriseAnswer orchestration pipeline.

The definitions below are a shallow embedding of the two files that implement
the core of the system:

* src/app/api/search/route.ts — the POST /api/search handler: parameter
  clamping, the step ledger (upsertStepLog), the streamed pipeline
  (received → embed → retrieve → tool → llm), and run-history persistence
  (flushRunHistory).
* src/store/chatStore.ts — the client-side trace reducer (sendMessage): the
  JSONL chunk buffering loop, the per-event dispatch, and the input guard.

Modelling conventions:

* JS numbers are modelled as rationals; NaN and non-number inputs fall under
  the same default branch as out-of-range numbers, since every comparison
  against NaN is false in JS.
* An optional JS object property is an Option; none models a property that is
  absent or has the value undefined.  JSON.stringify drops undefined-valued
  properties, so the two are indistinguishable on the wire and in the
  persisted record; on every step sequence the route actually produces, the
  in-memory ledger also cannot tell them apart (each later update to a step
  whose detail was set carries a detail of its own).
* Effects are made explicit: the pipeline state carries the emitted events in
  emission order, the run_history insert calls in call order, and the
  arguments of the single LLM call.  External collaborators (embedding,
  Supabase RPC retrieval, streamed chat completion) enter as outcome
  parameters, one per call site.
-/

namespace EnterpriseAnswer

/-- Status of one pipeline step (src/types/agent.ts, StepStatus in route.ts). -/
inductive StepStatus where
  | pending
  | running
  | done
  | error
deriving DecidableEq, Repr

/-- One entry of the server-side step ledger (StepLog in route.ts).
`detail` is the optional property; none = absent-or-undefined. -/
structure StepLog where
  id : String
  title : String
  status : StepStatus
  detail : Option String
deriving DecidableEq, Repr

/-- JS object-spread merge used in `stepsLog[idx] = { ...stepsLog[idx], ...step }`:
a property of the update that is present overrides, an absent one keeps the
prior value.  `id`, `title` and `status` are required properties of StepLog,
so the update always provides them. -/
def mergeStep (old s : StepLog) : StepLog :=
  { id := s.id
    title := s.title
    status := s.status
    detail := s.detail <|> old.detail }

/-- upsertStepLog from route.ts: find the first ledger entry with the step's
id; if none exists push the step at the end, else replace that entry by the
spread merge.  (findIndex scans left to right, so only the first occurrence
of the id is touched.) -/
def upsertStepLog (log : List StepLog) (s : StepLog) : List StepLog :=
  match log with
  | [] => [s]
  | e :: rest =>
      if e.id = s.id then mergeStep e s :: rest
      else e :: upsertStepLog rest s

/-- safeTopK from route.ts: a caller-supplied number strictly between 0 and 20
inclusive is floored, everything else (absent, non-number, NaN, out of range)
becomes 5. -/
def safeTopK : Option ℚ → Int
  | some t => if 0 < t ∧ t ≤ 20 then ⌊t⌋ else 5
  | none => 5

/-- safeThreshold from route.ts: a caller-supplied number in [0, 1] is kept,
everything else becomes 0.4. -/
def safeThreshold : Option ℚ → ℚ
  | some t => if 0 ≤ t ∧ t ≤ 1 then t else 0.4
  | none => 0.4

/-- One retrieved row as returned by the match_documents RPC (MatchRow in
route.ts); similarity and score are alternate optional ranking fields. -/
structure MatchRow where
  id : Int
  document_id : Int
  content : String
  similarity : Option ℚ
  score : Option ℚ
deriving DecidableEq, Repr

/-- Conversation role of a prior turn (HistoryItem in route.ts). -/
inductive Role where
  | user
  | assistant
deriving DecidableEq, Repr

/-- One prior conversation turn passed through by the caller. -/
structure HistoryItem where
  role : Role
  content : String
deriving DecidableEq, Repr

/-- Role of one message of the chat-completion request. -/
inductive MsgRole where
  | system
  | user
  | assistant
deriving DecidableEq, Repr

/-- One message of the chat-completion request built in route.ts. -/
structure ChatMessage where
  role : MsgRole
  content : String
deriving DecidableEq, Repr

/-- One record of the JSONL wire protocol (the argument of sendJSON). -/
inductive WireEvent where
  | step (s : StepLog)
  | sources (rows : List MatchRow)
  | delta (d : String)
  | error (msg : String)
deriving DecidableEq, Repr

/-- The run_history row built by flushRunHistory. -/
structure RunRecord where
  question : String
  answer : Option String
  topk : Int
  threshold : ℚ
  matched_count : Nat
  duration_ms : Int
  steps : List StepLog
  sources : List MatchRow
deriving DecidableEq, Repr

/-- JS short-circuit `a || b` on strings: the empty string is falsy. -/
def jsOrElseStr (a b : String) : String :=
  if a = "" then b else a

/-- Outcome of the embeddings.embedDocuments call. -/
inductive EmbedOutcome where
  | ok (vector : List ℚ)
  | fail (msg : String)
deriving DecidableEq, Repr

/-- Outcome of the supabase.rpc match_documents call: either rows (the code
coalesces a null data field to the empty list) or an error object. -/
inductive RetrieveOutcome where
  | ok (rows : List MatchRow)
  | fail (msg : String)
deriving DecidableEq, Repr

/-- Outcome of the streamed chat completion: the per-chunk delta contents in
arrival order (none models a chunk whose choices[0].delta.content is absent),
then either normal exhaustion or a thrown error.  A failure of the create
call itself is the case frags = [] with a failure. -/
structure GenOutcome where
  frags : List (Option String)
  failure : Option String
deriving DecidableEq, Repr

/-- The inbound parameters after clamping, as used inside the stream body. -/
structure RunParams where
  question : String
  history : List HistoryItem
  topk : Int
  threshold : ℚ
  durationMs : Int
deriving DecidableEq, Repr

/-- The mutable state of one stream execution, with the effect trace made
explicit: events in emission order, run_history insert calls in call order,
and the arguments of the single chat-completion call (none while it has not
been issued). -/
structure PipeState where
  stepsLog : List StepLog
  sourcesForLog : List MatchRow
  matchedCountForLog : Nat
  answerForLog : String
  events : List WireEvent
  records : List RunRecord
  genRequest : Option (List ChatMessage)
  genMatches : Option (List MatchRow)
  closed : Bool
deriving DecidableEq, Repr

/-- The state at the top of the stream start callback. -/
def initPipeState : PipeState :=
  { stepsLog := []
    sourcesForLog := []
    matchedCountForLog := 0
    answerForLog := ""
    events := []
    records := []
    genRequest := none
    genMatches := none
    closed := false }

/-- sendJSON from route.ts: enqueue one JSONL record. -/
def sendJSON (st : PipeState) (e : WireEvent) : PipeState :=
  { st with events := st.events ++ [e] }

/-- sendStep from route.ts: build the step object, upsert it into the ledger,
and emit it (the emitted event carries the freshly built step, not the merged
ledger entry). -/
def sendStep (st : PipeState) (id title : String) (status : StepStatus)
    (detail : Option String) : PipeState :=
  let s : StepLog := { id := id, title := title, status := status, detail := detail }
  sendJSON { st with stepsLog := upsertStepLog st.stepsLog s } (WireEvent.step s)

/-- flushRunHistory from route.ts: build the run_history row from the
accumulated state and issue the insert.  The insert is wrapped in its own
try/catch whose handler only logs, so the call itself always counts as one
persistence attempt and never alters the stream. -/
def flushRunHistory (p : RunParams) (st : PipeState) : PipeState :=
  let record : RunRecord :=
    { question := p.question
      answer := if st.answerForLog = "" then none else some st.answerForLog
      topk := p.topk
      threshold := p.threshold
      matched_count := st.matchedCountForLog
      duration_ms := p.durationMs
      steps := st.stepsLog
      sources := st.sourcesForLog }
  { st with records := st.records ++ [record] }

/-- The catch handler of the stream body: emit the generic error step and the
error event, flush the run history, close the controller. -/
def catchBranch (p : RunParams) (msg : String) (st : PipeState) : PipeState :=
  let st := sendStep st "error" "服务端出错" StepStatus.error
    (some (jsOrElseStr msg "Unknown error"))
  let st := sendJSON st (WireEvent.error (jsOrElseStr msg "Server error"))
  let st := flushRunHistory p st
  { st with closed := true }

/-- The canned answer used when retrieval matches nothing. -/
def noAnswerText : String := "文档中未提及相关信息。"

/-- The detail string of the running retrieve step (template literal). -/
def retrieveDetail (topk : Int) (threshold : ℚ) : String :=
  "topK=" ++ toString topk ++ ", threshold=" ++ toString threshold

/-- The detail string of the done retrieve step. -/
def hitDetail (n : Nat) : String := "命中 " ++ toString n ++ " 条片段"

/-- The detail string of the done tool step. -/
def toolDetail (n : Nat) : String := "工具返回 " ++ toString n ++ " 条候选片段"

/-- The fixed system instruction of the generation prompt. -/
def systemPrompt : String :=
  "\n你是一名企业知识问答助手，请根据提供的企业内部文档内容，用简洁、正式的中文回答问题。\n如果文档中找不到答案，请直接回复：“文档中未提及相关信息。”，不要编造。\n"

/-- The retrieval context: the contents of all matches joined by the
separator, exactly as route.ts builds it. -/
def mkContext (ms : List MatchRow) : String :=
  String.intercalate "\n---\n" (ms.map MatchRow.content)

/-- The message list passed to the chat-completion call: system instruction,
the caller's prior turns, then the current question augmented with the
context. -/
def buildMessages (history : List HistoryItem) (context question : String) :
    List ChatMessage :=
  let historyMessages := history.map (fun m =>
    ChatMessage.mk (match m.role with
      | Role.user => MsgRole.user
      | Role.assistant => MsgRole.assistant) m.content)
  ChatMessage.mk MsgRole.system systemPrompt ::
    historyMessages ++
      [ChatMessage.mk MsgRole.user
        ("请基于以下【文档内容】回答用户当前的问题。\n\n【文档内容】\n" ++ context ++
          "\n\n【当前问题】\n" ++ question)]

/-- The for-await loop over completion chunks: a chunk with an absent or
empty delta content is skipped; otherwise the fragment is appended to the
accumulating answer (currentContent, mirrored into answerForLog) and emitted
as one delta event.  answerForLog is empty when the loop starts, so the
accumulator and answerForLog coincide. -/
def genLoop (st : PipeState) : List (Option String) → PipeState
  | [] => st
  | f :: fs =>
      let d := f.getD ""
      if d = "" then genLoop st fs
      else
        genLoop
          (sendJSON { st with answerForLog := st.answerForLog ++ d }
            (WireEvent.delta d)) fs

/-- The stream start callback of the POST handler, from the first sendStep to
controller.close, as a function of the collaborator outcomes.  toolFail is
the hypothetical error thrown inside the tool try block (the placeholder
body cannot actually throw, but the catch handler exists and is embedded
faithfully). -/
def runPipeline (p : RunParams) (embedOut : EmbedOutcome)
    (retrieveOut : RetrieveOutcome) (toolFail : Option String)
    (gen : GenOutcome) : PipeState :=
  let st := sendStep initPipeState "received" "收到问题" StepStatus.done (some p.question)
  let st := sendStep st "embed" "生成查询向量" StepStatus.running none
  match embedOut with
  | EmbedOutcome.fail msg => catchBranch p msg st
  | EmbedOutcome.ok _ =>
    let st := sendStep st "embed" "生成查询向量" StepStatus.done none
    let st := sendStep st "retrieve" "检索相关文档片段" StepStatus.running
      (some (retrieveDetail p.topk p.threshold))
    match retrieveOut with
    | RetrieveOutcome.fail msg =>
        let st := sendStep st "retrieve" "检索相关文档片段" StepStatus.error (some msg)
        catchBranch p msg st
    | RetrieveOutcome.ok rows =>
        let st := { st with matchedCountForLog := rows.length, sourcesForLog := rows }
        match rows with
        | [] =>
            let st := sendStep st "retrieve" "检索相关文档片段" StepStatus.done
              (some "未找到相关内容")
            let st := { st with answerForLog := noAnswerText }
            let st := sendJSON st (WireEvent.delta noAnswerText)
            let st := flushRunHistory p st
            { st with closed := true }
        | r :: rs =>
            let ms := r :: rs
            let st := sendStep st "retrieve" "检索相关文档片段" StepStatus.done
              (some (hitDetail ms.length))
            let st := sendJSON st (WireEvent.sources ms)
            let st := sendStep st "tool" "调用工具：searchDocs" StepStatus.running
              (some "基于向量检索结果进行处理")
            let st := match toolFail with
              | none => sendStep st "tool" "调用工具：searchDocs" StepStatus.done
                  (some (toolDetail ms.length))
              | some terr => sendStep st "tool" "调用工具：searchDocs" StepStatus.error
                  (some (jsOrElseStr terr "工具调用失败"))
            let st := sendStep st "llm" "生成回答" StepStatus.running none
            let st := { st with
              genRequest := some (buildMessages p.history (mkContext ms) p.question)
              genMatches := some ms }
            let st := genLoop st gen.frags
            match gen.failure with
            | some msg => catchBranch p msg st
            | none =>
                let st := sendStep st "llm" "生成回答" StepStatus.done none
                let st := flushRunHistory p st
                { st with closed := true }

/-- The POST handler boundary: a missing question — undefined or the falsy
empty string — is rejected with a 400 response before the stream (and hence
the pipeline) is ever created. -/
def POST (question : Option String) (history : List HistoryItem)
    (topK threshold : Option ℚ) (durationMs : Int)
    (embedOut : EmbedOutcome) (retrieveOut : RetrieveOutcome)
    (toolFail : Option String) (gen : GenOutcome) : Except String PipeState :=
  match question with
  | none => Except.error "Missing question"
  | some q =>
      if q = "" then Except.error "Missing question"
      else Except.ok (runPipeline
        { question := q, history := history, topk := safeTopK topK,
          threshold := safeThreshold threshold, durationMs := durationMs }
        embedOut retrieveOut toolFail gen)

/-! ## Client-side trace reducer (src/store/chatStore.ts) -/

/-- A step object as parsed from one JSONL record on the client.  JSON.parse
gives no typing guarantee, so beyond the id every field may be absent; an
absent field is none and, under JS object spread, does not override. -/
structure ClientStep where
  id : String
  title : Option String
  status : Option StepStatus
  detail : Option String
deriving DecidableEq, Repr

/-- The client merge `copy[idx] = { ...copy[idx], ...step }`. -/
def mergeClientStep (old s : ClientStep) : ClientStep :=
  { id := s.id
    title := s.title <|> old.title
    status := s.status <|> old.status
    detail := s.detail <|> old.detail }

/-- The client step upsert of the step branch of sendMessage: findIndex by
id, append when absent, spread-merge the first match otherwise. -/
def clientUpsertStep (steps : List ClientStep) (s : ClientStep) : List ClientStep :=
  match steps with
  | [] => [s]
  | e :: rest =>
      if e.id = s.id then mergeClientStep e s :: rest
      else e :: clientUpsertStep rest s

/-- A raw match object of a sources event as seen by the client; every field
may be absent. -/
structure RawMatch where
  id : Option Int
  document_id : Option Int
  content : Option String
  snippet : Option String
  similarity : Option ℚ
  score : Option ℚ
deriving DecidableEq, Repr

/-- The client Source shape (src/types/chat.ts). -/
structure Source where
  id : Int
  document_id : Int
  snippet : String
  similarity : String
deriving DecidableEq, Repr

/-- The normalization applied per match in the sources branch: nullish
coalescing on ids, content-or-snippet, similarity-or-score rendered as a
string. -/
def normalizeSource (idx : Nat) (m : RawMatch) : Source :=
  { id := m.id.getD (Int.ofNat idx)
    document_id := m.document_id.getD 0
    snippet := (m.content <|> m.snippet).getD ""
    similarity := ((m.similarity.map toString) <|> (m.score.map toString)).getD "" }

/-- One parsed JSONL record as dispatched by the reducer.  The delta payload
is optional because the code reads `data.data ?? ""`. -/
inductive ClientEvent where
  | step (s : ClientStep)
  | sources (rows : List RawMatch)
  | delta (d : Option String)
  | error (msg : String)
deriving DecidableEq, Repr

/-- The state the reducer maintains for the in-flight request: the local step
list, the in-progress assistant message's displayed text, and its sources
field. -/
structure ClientState where
  steps : List ClientStep
  content : String
  sources : List Source
deriving DecidableEq, Repr

/-- Process one complete line of the JSONL stream: skip blank lines, skip
lines JSON.parse rejects (parse = none, which also covers records whose type
matches no branch), and otherwise dispatch on the event type exactly as the
for-loop body of sendMessage does.  An error record only logs. -/
def handleLine (parse : List Char → Option ClientEvent)
    (s : ClientState) (line : List Char) : ClientState :=
  if line.all Char.isWhitespace then s
  else
    match parse line with
    | none => s
    | some (ClientEvent.step st) => { s with steps := clientUpsertStep s.steps st }
    | some (ClientEvent.sources rows) =>
        { s with sources := rows.enum.map (fun p => normalizeSource p.1 p.2) }
    | some (ClientEvent.delta d) =>
        let t := d.getD ""
        if t = "" then s else { s with content := s.content ++ t }
    | some (ClientEvent.error _) => s

/-- The reducer's loop state: the client state plus the carry-over text
buffer.  Chunks are modelled at the character level: TextDecoder with
stream = true reassembles code points split across byte boundaries before
they reach the buffer, so a byte-boundary split of the wire is a character
split of the decoded text. -/
structure ReaderState where
  state : ClientState
  buffer : List Char
deriving DecidableEq, Repr

/-- Split a character sequence on the newline record separator, keeping the
trailing (possibly empty) fragment, exactly like String.split("\n"). -/
def splitNL : List Char → List (List Char)
  | [] => [[]]
  | c :: cs =>
      if c = '\n' then [] :: splitNL cs
      else
        match splitNL cs with
        | [] => [[c]]
        | l :: ls => (c :: l) :: ls

/-- The body of the read loop for one received chunk: append to the buffer,
split on newlines, process every complete line, and retain the final
fragment as the new buffer (`buffer = lines.pop() || ""`). -/
def processChunk (parse : List Char → Option ClientEvent)
    (rs : ReaderState) (chunk : List Char) : ReaderState :=
  let buf := rs.buffer ++ chunk
  let lines := splitNL buf
  { state := lines.dropLast.foldl (handleLine parse) rs.state
    buffer := lines.getLastD [] }

/-- The leftover-buffer handling after the read loop: a non-blank remainder
is parsed best-effort, and only a delta record with a non-empty payload
changes the state (all other types, and parse failures, are dropped). -/
def finalizeBuffer (parse : List Char → Option ClientEvent)
    (rs : ReaderState) : ClientState :=
  if rs.buffer.all Char.isWhitespace then rs.state
  else
    match parse rs.buffer with
    | some (ClientEvent.delta d) =>
        let t := d.getD ""
        if t = "" then rs.state
        else { rs.state with content := rs.state.content ++ t }
    | _ => rs.state

/-- The whole stream consumption of sendMessage: fold the chunk loop from an
empty buffer, then apply the leftover handling. -/
def consumeStream (parse : List Char → Option ClientEvent)
    (init : ClientState) (chunks : List (List Char)) : ClientState :=
  finalizeBuffer parse (chunks.foldl (processChunk parse) (ReaderState.mk init []))

/-- One chat message of the client store (src/types/chat.ts Message). -/
structure Message where
  id : String
  role : Role
  content : String
  sources : Option (List Source)
deriving DecidableEq, Repr

/-- The slice of the zustand store state sendMessage reads and writes. -/
structure ChatStoreState where
  messages : List Message
  steps : List ClientStep
  isLoading : Bool
  input : String
deriving DecidableEq, Repr

/-- The outbound request body sendMessage builds. -/
structure SearchRequest where
  question : String
  history : List HistoryItem
deriving DecidableEq, Repr

/-- JS String.prototype.trim: strip leading and trailing whitespace.
Modelled at the character level so that concrete inputs evaluate. -/
def jsTrim (s : String) : String :=
  String.mk (((s.data.dropWhile Char.isWhitespace).reverse.dropWhile
    Char.isWhitespace).reverse)

/-- The synchronous head of sendMessage, up to the fetch call: trim the
input; when the trimmed input is empty or a request is in flight, return
without calling set or fetch (none).  Otherwise build the user and the empty
assistant message (uid1, uid2 model the two crypto.randomUUID results),
switch the store to the loading state, and issue the request. -/
def sendMessageStart (st : ChatStoreState) (uid1 uid2 : String) :
    Option (ChatStoreState × SearchRequest) :=
  let userInput := jsTrim st.input
  if userInput = "" ∨ st.isLoading then none
  else
    let userMessage : Message :=
      { id := uid1, role := Role.user, content := userInput, sources := none }
    let assistantMessage : Message :=
      { id := uid2, role := Role.assistant, content := "", sources := some [] }
    let historyForBackend := st.messages.map (fun m => HistoryItem.mk m.role m.content)
    some
      ({ messages := st.messages ++ [userMessage, assistantMessage]
         steps := []
         isLoading := true
         input := "" },
       { question := userInput, history := historyForBackend })

/-- The delta payload of an event, if it is a delta event. -/
def deltaPayload : WireEvent → Option String
  | WireEvent.delta d => some d
  | _ => none

/-- Concatenation of all delta payloads of an event list, in order. -/
def deltaConcat (events : List WireEvent) : String :=
  String.join (events.filterMap deltaPayload)

/-- The text contributed by a list of completion chunks: absent contents
count as the empty string. -/
def fragsText : List (Option String) → String
  | [] => ""
  | f :: fs => f.getD "" ++ fragsText fs

/-- The delta events emitted for a list of completion chunks: absent and
empty contents are skipped. -/
def fragsEvents : List (Option String) → List WireEvent
  | [] => []
  | f :: fs =>
      if f.getD "" = "" then fragsEvents fs
      else WireEvent.delta (f.getD "") :: fragsEvents fs

/-- The run record flushRunHistory builds at the end of the run, expressed
over the final pipeline state. -/
def finalRecord (p : RunParams) (st : PipeState) : RunRecord :=
  { question := p.question
    answer := if st.answerForLog = "" then none else some st.answerForLog
    topk := p.topk
    threshold := p.threshold
    matched_count := st.matchedCountForLog
    duration_ms := p.durationMs
    steps := st.stepsLog
    sources := st.sourcesForLog }

/-- Character-at-a-time reformulation of the chunk loop, used to prove the
re-chunking invariance: a newline hands the buffered line to the line
handler, any other character is appended to the carry-over buffer. -/
def charFeed (parse : List Char → Option ClientEvent) :
    ReaderState → List Char → ReaderState
  | rs, [] => rs
  | rs, c :: cs =>
      if c = '\n' then
        charFeed parse (ReaderState.mk (handleLine parse rs.state rs.buffer) []) cs
      else charFeed parse (ReaderState.mk rs.state (rs.buffer ++ [c])) cs

/-! ## Helper lemmas -/

theorem mergeStep_self (s : StepLog) : mergeStep s s = s := by
  cases s with
  | mk id title status detail => cases detail <;> simp [mergeStep]

theorem mergeStep_absorb (e s : StepLog) :
    mergeStep (mergeStep e s) s = mergeStep e s := by
  cases h : s.detail <;> simp [mergeStep, h]

theorem genLoop_eq (st : PipeState) (fs : List (Option String)) :
    genLoop st fs
      = { st with answerForLog := st.answerForLog ++ fragsText fs,
                  events := st.events ++ fragsEvents fs } := by
  induction fs generalizing st with
  | nil => simp [genLoop, fragsText, fragsEvents, String.append_empty]
  | cons f fs ih =>
      by_cases h : f.getD "" = ""
      · simp [genLoop, h, fragsText, fragsEvents, ih, String.empty_append]
      · simp only [genLoop, h, if_neg h, fragsText, fragsEvents, ih, sendJSON]
        simp [String.append_assoc]

theorem stringFoldlAppend (x y : String) (l : List String) :
    l.foldl (· ++ ·) (x ++ y) = x ++ l.foldl (· ++ ·) y := by
  induction l generalizing y with
  | nil => rfl
  | cons a l ih =>
      simp only [List.foldl_cons, String.append_assoc]
      exact ih (y ++ a)

theorem stringJoin_cons (a : String) (l : List String) :
    String.join (a :: l) = a ++ String.join l := by
  show l.foldl (· ++ ·) ("" ++ a) = a ++ l.foldl (· ++ ·) ""
  rw [String.empty_append]
  calc l.foldl (· ++ ·) a = l.foldl (· ++ ·) (a ++ "") := by rw [String.append_empty]
    _ = a ++ l.foldl (· ++ ·) "" := stringFoldlAppend a "" l

@[simp] theorem deltaConcat_nil : deltaConcat [] = "" := rfl

@[simp] theorem deltaConcat_step (s : StepLog) (es : List WireEvent) :
    deltaConcat (WireEvent.step s :: es) = deltaConcat es := rfl

@[simp] theorem deltaConcat_sources (rows : List MatchRow) (es : List WireEvent) :
    deltaConcat (WireEvent.sources rows :: es) = deltaConcat es := rfl

@[simp] theorem deltaConcat_error (m : String) (es : List WireEvent) :
    deltaConcat (WireEvent.error m :: es) = deltaConcat es := rfl

@[simp] theorem deltaConcat_delta (d : String) (es : List WireEvent) :
    deltaConcat (WireEvent.delta d :: es) = d ++ deltaConcat es := by
  simp only [deltaConcat, List.filterMap_cons, deltaPayload]
  exact stringJoin_cons d (es.filterMap deltaPayload)

theorem deltaConcat_append (a b : List WireEvent) :
    deltaConcat (a ++ b) = deltaConcat a ++ deltaConcat b := by
  induction a with
  | nil => simp [String.empty_append]
  | cons e es ih =>
      cases e <;> simp [ih, String.append_assoc]

theorem deltaConcat_fragsEvents (fs : List (Option String)) :
    deltaConcat (fragsEvents fs) = fragsText fs := by
  induction fs with
  | nil => rfl
  | cons f fs ih =>
      by_cases h : f.getD "" = ""
      · simp [fragsEvents, fragsText, h, ih, String.empty_append]
      · simp [fragsEvents, fragsText, h, ih]

/-- Master characterization of one pipeline run: whatever the collaborator
outcomes, exactly one run_history insert is issued, carrying the final
ledger, sources, matched count and answer buffer; the matched count equals
the number of persisted sources; the answer buffer equals the concatenation
of all emitted delta payloads; and the stream is closed. -/
theorem runPipeline_flush_spec (p : RunParams) (e : EmbedOutcome)
    (rr : RetrieveOutcome) (t : Option String) (g : GenOutcome) :
    (runPipeline p e rr t g).records = [finalRecord p (runPipeline p e rr t g)]
    ∧ (runPipeline p e rr t g).matchedCountForLog
        = (runPipeline p e rr t g).sourcesForLog.length
    ∧ (runPipeline p e rr t g).answerForLog
        = deltaConcat (runPipeline p e rr t g).events
    ∧ (runPipeline p e rr t g).closed = true := by
  obtain ⟨frags, failure⟩ := g
  cases e with
  | fail msg =>
      simp [runPipeline, catchBranch, sendStep, sendJSON, flushRunHistory,
        initPipeState, upsertStepLog, mergeStep, finalRecord]
  | ok v =>
      cases rr with
      | fail msg =>
          simp [runPipeline, catchBranch, sendStep, sendJSON, flushRunHistory,
            initPipeState, upsertStepLog, mergeStep, finalRecord]
      | ok rows =>
          cases rows with
          | nil =>
              simp [runPipeline, sendStep, sendJSON, flushRunHistory,
                initPipeState, upsertStepLog, mergeStep, finalRecord, noAnswerText]
          | cons r rs =>
              cases t with
              | none =>
                  cases failure with
                  | none =>
                      simp [runPipeline, sendStep, sendJSON, flushRunHistory,
                        initPipeState, upsertStepLog, mergeStep, finalRecord,
                        genLoop_eq, deltaConcat_append, deltaConcat_fragsEvents,
                        String.empty_append]
                  | some gmsg =>
                      simp [runPipeline, catchBranch, sendStep, sendJSON,
                        flushRunHistory, initPipeState, upsertStepLog, mergeStep,
                        finalRecord, genLoop_eq, deltaConcat_append,
                        deltaConcat_fragsEvents, String.empty_append]
              | some terr =>
                  cases failure with
                  | none =>
                      simp [runPipeline, sendStep, sendJSON, flushRunHistory,
                        initPipeState, upsertStepLog, mergeStep, finalRecord,
                        genLoop_eq, deltaConcat_append, deltaConcat_fragsEvents,
                        String.empty_append]
                  | some gmsg =>
                      simp [runPipeline, catchBranch, sendStep, sendJSON,
                        flushRunHistory, initPipeState, upsertStepLog, mergeStep,
                        finalRecord, genLoop_eq, deltaConcat_append,
                        deltaConcat_fragsEvents, String.empty_append]

/-! ## Claims -/

/-- C6: step-ledger upsert is idempotent under repeated identical updates:
applying the same step update twice to any ledger yields the same ledger as
applying it once. -/
theorem upsertStepLog_idempotent (log : List StepLog) (s : StepLog) :
    upsertStepLog (upsertStepLog log s) s = upsertStepLog log s := by
  induction log with
  | nil =>
      simp [upsertStepLog, mergeStep_self]
  | cons e rest ih =>
      by_cases h : e.id = s.id
      · simp [upsertStepLog, h, mergeStep, mergeStep_absorb]
        cases hd : s.detail <;> simp [hd]
      · simp [upsertStepLog, h, ih]

theorem upsertStepLog_append_of_absent (log : List StepLog) (s : StepLog)
    (h : ∀ e ∈ log, e.id ≠ s.id) : upsertStepLog log s = log ++ [s] := by
  induction log with
  | nil => rfl
  | cons e rest ih =>
      have he : e.id ≠ s.id := h e (List.mem_cons_self e rest)
      simp only [upsertStepLog, if_neg he, List.cons_append]
      rw [ih (fun x hx => h x (List.mem_cons_of_mem e hx))]

theorem clientUpsertStep_append_of_absent (steps : List ClientStep)
    (s : ClientStep) (h : ∀ e ∈ steps, e.id ≠ s.id) :
    clientUpsertStep steps s = steps ++ [s] := by
  induction steps with
  | nil => rfl
  | cons e rest ih =>
      have he : e.id ≠ s.id := h e (List.mem_cons_self e rest)
      simp only [clientUpsertStep, if_neg he, List.cons_append]
      rw [ih (fun x hx => h x (List.mem_cons_of_mem e hx))]

theorem clientUpsertStep_merge_at (pre post : List ClientStep)
    (old patch : ClientStep) (hpre : ∀ e ∈ pre, e.id ≠ patch.id)
    (hid : patch.id = old.id) :
    clientUpsertStep (pre ++ old :: post) patch
      = pre ++ mergeClientStep old patch :: post := by
  induction pre with
  | nil =>
      simp only [List.nil_append, clientUpsertStep, if_pos hid.symm]
  | cons e rest ih =>
      have he : e.id ≠ patch.id := hpre e (List.mem_cons_self e rest)
      simp only [List.cons_append, clientUpsertStep, if_neg he, List.append_eq]
      rw [ih (fun x hx => hpre x (List.mem_cons_of_mem e hx))]

/-- C5: the step-ledger upsert satisfies the merge contract: a step whose key
is absent is appended at the end (both in the server ledger and the client
reducer), and a partial client update that supplies only a new status merges
into the existing entry, leaving the prior title and detail unchanged. -/
theorem upsert_merge_contract (log : List StepLog) (s : StepLog)
    (pre post : List ClientStep) (old patch : ClientStep) (newSt : StepStatus) :
    ((∀ e ∈ log, e.id ≠ s.id) → upsertStepLog log s = log ++ [s]) ∧
    ((∀ e ∈ pre, e.id ≠ patch.id) →
      clientUpsertStep pre patch = pre ++ [patch]) ∧
    ((∀ e ∈ pre, e.id ≠ patch.id) → patch.id = old.id → patch.title = none →
      patch.detail = none → patch.status = some newSt →
      clientUpsertStep (pre ++ old :: post) patch
        = pre ++ ClientStep.mk old.id old.title (some newSt) old.detail :: post) := by
  refine ⟨upsertStepLog_append_of_absent log s, clientUpsertStep_append_of_absent pre patch, ?_⟩
  intro hpre hid htitle hdetail hstatus
  rw [clientUpsertStep_merge_at pre post old patch hpre hid]
  simp [mergeClientStep, hid, htitle, hdetail, hstatus]

/-- Witness for C5: appending a fresh step, and a status-only update merging
into an existing entry while keeping its title and detail. -/
theorem upsert_merge_contract_witness :
    upsertStepLog [] (StepLog.mk "embed" "t" StepStatus.running none)
      = [StepLog.mk "embed" "t" StepStatus.running none] ∧
    clientUpsertStep [ClientStep.mk "embed" (some "T") (some StepStatus.running) (some "D")]
        (ClientStep.mk "embed" none (some StepStatus.done) none)
      = [ClientStep.mk "embed" (some "T") (some StepStatus.done) (some "D")] := by
  constructor
  · exact (upsert_merge_contract [] (StepLog.mk "embed" "t" StepStatus.running none)
      [] [] (ClientStep.mk "x" none none none) (ClientStep.mk "x" none none none)
      StepStatus.done).1 (by simp)
  · exact (upsert_merge_contract [] (StepLog.mk "embed" "t" StepStatus.running none)
      [] [] (ClientStep.mk "embed" (some "T") (some StepStatus.running) (some "D"))
      (ClientStep.mk "embed" none (some StepStatus.done) none)
      StepStatus.done).2.2 (by simp) rfl rfl rfl rfl

/-- C3 counterexample: the caller-supplied topK = 0.5 passes the range test
0 < topK ≤ 20, but Math.floor maps it to 0, which is outside the claimed
integer range (0, 20]. -/
theorem safeTopK_fractional_escapes_range :
    safeTopK (some (1 / 2)) = 0 ∧ ¬ 0 < safeTopK (some (1 / 2)) := by
  norm_num [safeTopK]

/-- C3 (amended): the clamped topK is an integer in [0, 20] — a fractional
input below 1 floors to 0 — equal to 5 when the parameter is absent or
outside (0, 20] and to the input itself on integer inputs in (0, 20]; the
clamped threshold lies in [0, 1], equal to 0.4 when absent or out of range
and to the input itself otherwise; and the clamped pair is what the run
record persists (and what the retrieval call receives, since the pipeline
takes the clamped parameters). -/
theorem safeParams_clamped_ranges (tk th : Option ℚ) (q r : ℚ) (n : Int)
    (qn : String) (hist : List HistoryItem) (d : Int) (e : EmbedOutcome)
    (rr : RetrieveOutcome) (t : Option String) (g : GenOutcome) :
    (0 ≤ safeTopK tk ∧ safeTopK tk ≤ 20) ∧
    safeTopK none = 5 ∧
    (¬ (0 < q ∧ q ≤ 20) → safeTopK (some q) = 5) ∧
    (0 < n → n ≤ 20 → safeTopK (some (n : ℚ)) = n) ∧
    (0 ≤ safeThreshold th ∧ safeThreshold th ≤ 1) ∧
    safeThreshold none = 0.4 ∧
    (¬ (0 ≤ r ∧ r ≤ 1) → safeThreshold (some r) = 0.4) ∧
    (0 ≤ r → r ≤ 1 → safeThreshold (some r) = r) ∧
    (runPipeline (RunParams.mk qn hist (safeTopK tk) (safeThreshold th) d)
        e rr t g).records.map RunRecord.topk = [safeTopK tk] ∧
    (runPipeline (RunParams.mk qn hist (safeTopK tk) (safeThreshold th) d)
        e rr t g).records.map RunRecord.threshold = [safeThreshold th] := by
  obtain ⟨hrec, -, -, -⟩ := runPipeline_flush_spec
    (RunParams.mk qn hist (safeTopK tk) (safeThreshold th) d) e rr t g
  refine ⟨?_, rfl, ?_, ?_, ?_, rfl, ?_, ?_, ?_, ?_⟩
  · cases tk with
    | none => norm_num [safeTopK]
    | some q' =>
        by_cases h : 0 < q' ∧ q' ≤ 20
        · constructor
          · simp only [safeTopK, if_pos h]
            exact Int.floor_nonneg.mpr (le_of_lt h.1)
          · simp only [safeTopK, if_pos h]
            calc ⌊q'⌋ ≤ ⌊(20 : ℚ)⌋ := Int.floor_le_floor h.2
              _ = 20 := by norm_num
        · simp [safeTopK, if_neg h]
  · intro h
    simp [safeTopK, if_neg h]
  · intro h1 h2
    have hc : 0 < (n : ℚ) ∧ (n : ℚ) ≤ 20 := by
      constructor
      · exact_mod_cast h1
      · exact_mod_cast h2
    show (if 0 < (n : ℚ) ∧ (n : ℚ) ≤ 20 then ⌊(n : ℚ)⌋ else 5) = n
    rw [if_pos hc, Int.floor_intCast]
  · cases th with
    | none => norm_num [safeThreshold]
    | some r' =>
        by_cases h : 0 ≤ r' ∧ r' ≤ 1
        · simp only [safeThreshold, if_pos h]
          exact ⟨h.1, h.2⟩
        · simp only [safeThreshold, if_neg h]
          norm_num
  · intro h
    simp [safeThreshold, if_neg h]
  · intro h1 h2
    simp [safeThreshold, if_pos (And.intro h1 h2)]
  · rw [hrec]; rfl
  · rw [hrec]; rfl

/-- Witness for C3 (amended): an out-of-range topK and threshold fall back to
the defaults, and in-range values pass through. -/
theorem safeParams_clamped_ranges_witness :
    safeTopK (some 25) = 5 ∧ safeTopK (some 3) = 3 ∧
    safeThreshold (some 2) = 0.4 ∧ safeThreshold (some (1 / 2)) = 1 / 2 := by
  refine ⟨?_, ?_, ?_, ?_⟩
  · exact (safeParams_clamped_ranges none none 25 2 3 "q" [] 0
      (EmbedOutcome.ok []) (RetrieveOutcome.ok []) none
      (GenOutcome.mk [] none)).2.2.1 (by norm_num)
  · exact (safeParams_clamped_ranges none none 25 2 3 "q" [] 0
      (EmbedOutcome.ok []) (RetrieveOutcome.ok []) none
      (GenOutcome.mk [] none)).2.2.2.1 (by norm_num) (by norm_num)
  · exact (safeParams_clamped_ranges none none 25 2 3 "q" [] 0
      (EmbedOutcome.ok []) (RetrieveOutcome.ok []) none
      (GenOutcome.mk [] none)).2.2.2.2.2.2.1 (by norm_num)
  · exact (safeParams_clamped_ranges none none 25 (1 / 2) 3 "q" [] 0
      (EmbedOutcome.ok []) (RetrieveOutcome.ok []) none
      (GenOutcome.mk [] none)).2.2.2.2.2.2.2.1 (by norm_num) (by norm_num)

/-- C1: every request that reaches pipeline start issues exactly one
run_history insert, whatever the collaborator outcomes, and the persisted
matched_count equals the number of persisted sources; a request with a
missing (or falsy empty) question is rejected before pipeline start. -/
theorem pipeline_persists_exactly_one_record (p : RunParams)
    (e : EmbedOutcome) (rr : RetrieveOutcome) (t : Option String)
    (g : GenOutcome) (hist : List HistoryItem) (tk th : Option ℚ) (d : Int)
    (e2 : EmbedOutcome) (rr2 : RetrieveOutcome) (t2 : Option String)
    (g2 : GenOutcome) :
    (runPipeline p e rr t g).records.length = 1 ∧
    (runPipeline p e rr t g).records.map RunRecord.matched_count
      = (runPipeline p e rr t g).records.map (fun rec => rec.sources.length) ∧
    POST none hist tk th d e2 rr2 t2 g2 = Except.error "Missing question" ∧
    POST (some "") hist tk th d e2 rr2 t2 g2 = Except.error "Missing question" := by
  obtain ⟨hrec, hmc, -, -⟩ := runPipeline_flush_spec p e rr t g
  refine ⟨by rw [hrec]; rfl, ?_, rfl, by simp [POST]⟩
  rw [hrec]
  simp [finalRecord, hmc]

/-- C2 counterexample: a run whose embedding call fails emits no delta event,
so the delta concatenation is the empty string, while the persisted answer is
null — the two are not equal. -/
theorem empty_run_answer_null_not_delta_concat :
    (runPipeline (RunParams.mk "q" [] 5 (2 / 5) 0) (EmbedOutcome.fail "boom")
        (RetrieveOutcome.ok []) none (GenOutcome.mk [] none)).records.map RunRecord.answer
      = [none]
    ∧ deltaConcat (runPipeline (RunParams.mk "q" [] 5 (2 / 5) 0) (EmbedOutcome.fail "boom")
        (RetrieveOutcome.ok []) none (GenOutcome.mk [] none)).events = ""
    ∧ (runPipeline (RunParams.mk "q" [] 5 (2 / 5) 0) (EmbedOutcome.fail "boom")
        (RetrieveOutcome.ok []) none (GenOutcome.mk [] none)).records.map RunRecord.answer
      ≠ [some (deltaConcat (runPipeline (RunParams.mk "q" [] 5 (2 / 5) 0)
          (EmbedOutcome.fail "boom") (RetrieveOutcome.ok []) none
          (GenOutcome.mk [] none)).events)] := by
  refine ⟨?_, ?_, ?_⟩ <;>
    simp [runPipeline, catchBranch, sendStep, sendJSON, flushRunHistory,
      initPipeState, upsertStepLog, mergeStep]

/-- C2 (amended): concatenating the payloads of all emitted delta events, in
emission order, equals the run's answer buffer; the persisted answer field is
that concatenation when at least one delta was emitted, and null (not the
empty string) when none was. -/
theorem persisted_answer_is_delta_concat_or_null (p : RunParams)
    (e : EmbedOutcome) (rr : RetrieveOutcome) (t : Option String)
    (g : GenOutcome) :
    (runPipeline p e rr t g).records.map RunRecord.answer
      = [if deltaConcat (runPipeline p e rr t g).events = "" then none
         else some (deltaConcat (runPipeline p e rr t g).events)] := by
  obtain ⟨hrec, -, hans, -⟩ := runPipeline_flush_spec p e rr t g
  rw [hrec]
  simp [finalRecord, hans]

/-- C4: with zero retrieval matches the stream carries exactly one delta
event, whose payload is the canned no-results message; no generation call is
issued and no llm step exists; the retrieve step ends done with the
no-results detail; and the single persisted record's answer is the canned
message verbatim. -/
theorem zero_matches_single_canned_delta (p : RunParams) (v : List ℚ)
    (t : Option String) (g : GenOutcome) :
    (runPipeline p (EmbedOutcome.ok v) (RetrieveOutcome.ok []) t g).events.filterMap deltaPayload
      = [noAnswerText]
    ∧ (runPipeline p (EmbedOutcome.ok v) (RetrieveOutcome.ok []) t g).records.map RunRecord.answer
      = [some noAnswerText]
    ∧ (runPipeline p (EmbedOutcome.ok v) (RetrieveOutcome.ok []) t g).genRequest = none
    ∧ (runPipeline p (EmbedOutcome.ok v) (RetrieveOutcome.ok []) t g).stepsLog.filter
        (fun s => s.id = "llm") = []
    ∧ (runPipeline p (EmbedOutcome.ok v) (RetrieveOutcome.ok []) t g).stepsLog.filter
        (fun s => s.id = "retrieve")
      = [StepLog.mk "retrieve" "检索相关文档片段" StepStatus.done (some "未找到相关内容")]
    ∧ (runPipeline p (EmbedOutcome.ok v) (RetrieveOutcome.ok []) t g).records.length = 1 := by
  refine ⟨?_, ?_, ?_, ?_, ?_, ?_⟩ <;>
    simp [runPipeline, sendStep, sendJSON, flushRunHistory, initPipeState,
      upsertStepLog, mergeStep, noAnswerText, deltaPayload]

/-- C7: a tool-stage failure is non-fatal: with at least one retrieval match
and a failing tool step, the tool entry ends in status error, yet the llm
running step is still emitted, the generation call is issued with the
messages built from the unmodified retrieval results (identical to the
request of a run whose tool step succeeds), and the persisted answer is the
same as in that run. -/
theorem tool_failure_nonfatal (p : RunParams) (v : List ℚ) (r : MatchRow)
    (rs : List MatchRow) (terr : String) (g : GenOutcome) :
    (runPipeline p (EmbedOutcome.ok v) (RetrieveOutcome.ok (r :: rs)) (some terr) g).genMatches
      = some (r :: rs)
    ∧ (runPipeline p (EmbedOutcome.ok v) (RetrieveOutcome.ok (r :: rs)) (some terr) g).genRequest
      = (runPipeline p (EmbedOutcome.ok v) (RetrieveOutcome.ok (r :: rs)) none g).genRequest
    ∧ WireEvent.step (StepLog.mk "llm" "生成回答" StepStatus.running none)
      ∈ (runPipeline p (EmbedOutcome.ok v) (RetrieveOutcome.ok (r :: rs)) (some terr) g).events
    ∧ (runPipeline p (EmbedOutcome.ok v) (RetrieveOutcome.ok (r :: rs)) (some terr) g).stepsLog.filter
        (fun s => s.id = "tool")
      = [StepLog.mk "tool" "调用工具：searchDocs" StepStatus.error
          (some (jsOrElseStr terr "工具调用失败"))]
    ∧ (runPipeline p (EmbedOutcome.ok v) (RetrieveOutcome.ok (r :: rs)) (some terr) g).records.map
        RunRecord.answer
      = (runPipeline p (EmbedOutcome.ok v) (RetrieveOutcome.ok (r :: rs)) none g).records.map
        RunRecord.answer := by
  obtain ⟨frags, failure⟩ := g
  cases failure <;>
    refine ⟨?_, ?_, ?_, ?_, ?_⟩ <;>
      simp [runPipeline, catchBranch, sendStep, sendJSON, flushRunHistory,
        initPipeState, upsertStepLog, mergeStep, genLoop_eq]

/-- C9: every fatal collaborator failure — embedding, retrieval or generation
— ends the stream with a step event of status error followed by a dedicated
error event, closes the stream, and still issues exactly one run_history
insert carrying the steps and sources accumulated so far. -/
theorem fatal_failure_emits_error_and_persists (p : RunParams) (msg : String)
    (v : List ℚ) (rr : RetrieveOutcome) (t t2 : Option String)
    (g : GenOutcome) (r : MatchRow) (rs : List MatchRow)
    (fr : List (Option String)) :
    ((runPipeline p (EmbedOutcome.fail msg) rr t g).closed = true
     ∧ (runPipeline p (EmbedOutcome.fail msg) rr t g).events.reverse.take 2
        = [WireEvent.error (jsOrElseStr msg "Server error"),
           WireEvent.step (StepLog.mk "error" "服务端出错" StepStatus.error
             (some (jsOrElseStr msg "Unknown error")))]
     ∧ (runPipeline p (EmbedOutcome.fail msg) rr t g).records.map RunRecord.steps
        = [(runPipeline p (EmbedOutcome.fail msg) rr t g).stepsLog]
     ∧ (runPipeline p (EmbedOutcome.fail msg) rr t g).records.map RunRecord.sources
        = [(runPipeline p (EmbedOutcome.fail msg) rr t g).sourcesForLog]
     ∧ (runPipeline p (EmbedOutcome.fail msg) rr t g).records.length = 1)
    ∧ ((runPipeline p (EmbedOutcome.ok v) (RetrieveOutcome.fail msg) t g).closed = true
     ∧ (runPipeline p (EmbedOutcome.ok v) (RetrieveOutcome.fail msg) t g).events.reverse.take 2
        = [WireEvent.error (jsOrElseStr msg "Server error"),
           WireEvent.step (StepLog.mk "error" "服务端出错" StepStatus.error
             (some (jsOrElseStr msg "Unknown error")))]
     ∧ (runPipeline p (EmbedOutcome.ok v) (RetrieveOutcome.fail msg) t g).records.map RunRecord.steps
        = [(runPipeline p (EmbedOutcome.ok v) (RetrieveOutcome.fail msg) t g).stepsLog]
     ∧ (runPipeline p (EmbedOutcome.ok v) (RetrieveOutcome.fail msg) t g).records.map RunRecord.sources
        = [(runPipeline p (EmbedOutcome.ok v) (RetrieveOutcome.fail msg) t g).sourcesForLog]
     ∧ (runPipeline p (EmbedOutcome.ok v) (RetrieveOutcome.fail msg) t g).records.length = 1)
    ∧ ((runPipeline p (EmbedOutcome.ok v) (RetrieveOutcome.ok (r :: rs)) t2
          (GenOutcome.mk fr (some msg))).closed = true
     ∧ (runPipeline p (EmbedOutcome.ok v) (RetrieveOutcome.ok (r :: rs)) t2
          (GenOutcome.mk fr (some msg))).events.reverse.take 2
        = [WireEvent.error (jsOrElseStr msg "Server error"),
           WireEvent.step (StepLog.mk "error" "服务端出错" StepStatus.error
             (some (jsOrElseStr msg "Unknown error")))]
     ∧ (runPipeline p (EmbedOutcome.ok v) (RetrieveOutcome.ok (r :: rs)) t2
          (GenOutcome.mk fr (some msg))).records.map RunRecord.steps
        = [(runPipeline p (EmbedOutcome.ok v) (RetrieveOutcome.ok (r :: rs)) t2
            (GenOutcome.mk fr (some msg))).stepsLog]
     ∧ (runPipeline p (EmbedOutcome.ok v) (RetrieveOutcome.ok (r :: rs)) t2
          (GenOutcome.mk fr (some msg))).records.map RunRecord.sources
        = [(runPipeline p (EmbedOutcome.ok v) (RetrieveOutcome.ok (r :: rs)) t2
            (GenOutcome.mk fr (some msg))).sourcesForLog]
     ∧ (runPipeline p (EmbedOutcome.ok v) (RetrieveOutcome.ok (r :: rs)) t2
          (GenOutcome.mk fr (some msg))).records.length = 1) := by
  refine ⟨⟨?_, ?_, ?_, ?_, ?_⟩, ⟨?_, ?_, ?_, ?_, ?_⟩, ⟨?_, ?_, ?_, ?_, ?_⟩⟩ <;>
    cases t2 <;>
      simp [runPipeline, catchBranch, sendStep, sendJSON, flushRunHistory,
        initPipeState, upsertStepLog, mergeStep, genLoop_eq]

theorem charFeed_append (parse : List Char → Option ClientEvent)
    (rs : ReaderState) (a b : List Char) :
    charFeed parse rs (a ++ b) = charFeed parse (charFeed parse rs a) b := by
  induction a generalizing rs with
  | nil => rfl
  | cons c cs ih =>
      by_cases h : c = '\n' <;> simp [charFeed, h, ih]

theorem splitNL_ne_nil (l : List Char) : splitNL l ≠ [] := by
  cases l with
  | nil => simp [splitNL]
  | cons c cs =>
      by_cases h : c = '\n'
      · simp [splitNL, h]
      · simp only [splitNL, if_neg h]
        cases hs : splitNL cs <;> simp

theorem splitNL_of_no_newline (l : List Char) (h : '\n' ∉ l) :
    splitNL l = [l] := by
  induction l with
  | nil => rfl
  | cons c cs ih =>
      have hc : c ≠ '\n' := fun hh => h (hh ▸ List.mem_cons_self c cs)
      have hcs : '\n' ∉ cs := fun hm => h (List.mem_cons_of_mem c hm)
      simp [splitNL, hc, ih hcs]

theorem splitNL_append_newline (b cs : List Char) (h : '\n' ∉ b) :
    splitNL (b ++ '\n' :: cs) = b :: splitNL cs := by
  induction b with
  | nil => simp [splitNL]
  | cons x xs ih =>
      have hx : x ≠ '\n' := fun hh => h (hh ▸ List.mem_cons_self x xs)
      have hxs : '\n' ∉ xs := fun hm => h (List.mem_cons_of_mem x hm)
      simp [splitNL, hx, ih hxs]

theorem processChunk_eq_charFeed (parse : List Char → Option ClientEvent)
    (rs : ReaderState) (chunk : List Char) (h : '\n' ∉ rs.buffer) :
    processChunk parse rs chunk = charFeed parse rs chunk := by
  induction chunk generalizing rs with
  | nil =>
      simp [processChunk, charFeed, splitNL_of_no_newline rs.buffer h]
  | cons c cs ih =>
      by_cases hc : c = '\n'
      · subst hc
        obtain ⟨m, ms, hs⟩ := List.exists_cons_of_ne_nil (splitNL_ne_nil cs)
        have lhs_eq : processChunk parse rs ('\n' :: cs)
            = ReaderState.mk
                ((splitNL cs).dropLast.foldl (handleLine parse)
                  (handleLine parse rs.state rs.buffer))
                ((splitNL cs).getLastD []) := by
          simp [processChunk, splitNL_append_newline rs.buffer cs h, hs,
            List.dropLast, List.getLastD_cons]
        have rhs_eq : charFeed parse rs ('\n' :: cs)
            = charFeed parse
                (ReaderState.mk (handleLine parse rs.state rs.buffer) []) cs := by
          simp [charFeed]
        rw [lhs_eq, rhs_eq,
          ← ih (ReaderState.mk (handleLine parse rs.state rs.buffer) []) (by simp)]
        simp [processChunk]
      · have lhs_eq : processChunk parse rs (c :: cs)
            = processChunk parse (ReaderState.mk rs.state (rs.buffer ++ [c])) cs := by
          simp only [processChunk]
          rw [List.append_cons]
        have hbc : '\n' ∉ rs.buffer ++ [c] := by
          intro hm
          rcases List.mem_append.mp hm with hm | hm
          · exact h hm
          · simp only [List.mem_singleton] at hm
            exact hc hm.symm
        rw [lhs_eq, ih (ReaderState.mk rs.state (rs.buffer ++ [c])) hbc]
        simp [charFeed, hc]

theorem charFeed_buffer_no_newline (parse : List Char → Option ClientEvent)
    (rs : ReaderState) (a : List Char) (h : '\n' ∉ rs.buffer) :
    '\n' ∉ (charFeed parse rs a).buffer := by
  induction a generalizing rs with
  | nil => exact h
  | cons c cs ih =>
      by_cases hc : c = '\n'
      · subst hc
        simp only [charFeed, if_pos rfl]
        exact ih _ (by simp)
      · simp only [charFeed, if_neg hc]
        refine ih _ ?_
        intro hm
        rcases List.mem_append.mp hm with hm | hm
        · exact h hm
        · simp only [List.mem_singleton] at hm
          exact hc hm.symm

theorem foldl_processChunk_eq_charFeed (parse : List Char → Option ClientEvent)
    (rs : ReaderState) (chunks : List (List Char)) (h : '\n' ∉ rs.buffer) :
    chunks.foldl (processChunk parse) rs = charFeed parse rs chunks.flatten := by
  induction chunks generalizing rs with
  | nil => rfl
  | cons ch chs ih =>
      simp only [List.foldl_cons, List.flatten_cons]
      rw [processChunk_eq_charFeed parse rs ch h,
        ih _ (charFeed_buffer_no_newline parse rs ch h), ← charFeed_append]

/-- C8: the client-side trace reducer is invariant under re-chunking of the
wire stream — feeding any decoded character sequence split at arbitrary
boundaries (including mid-record) yields the same final state, leftover
handling included, as feeding it as one chunk.  Chunks are modelled at the
character level because TextDecoder in streaming mode reassembles code
points split across byte boundaries before they reach the buffer; the line
parser is universally quantified, covering any deterministic JSON.parse
behaviour. -/
theorem trace_reducer_rechunk_invariant (parse : List Char → Option ClientEvent)
    (init : ClientState) (chunks : List (List Char)) :
    consumeStream parse init chunks = consumeStream parse init [chunks.flatten] := by
  unfold consumeStream
  rw [foldl_processChunk_eq_charFeed parse (ReaderState.mk init []) chunks (by simp)]
  simp only [List.foldl_cons, List.foldl_nil]
  rw [processChunk_eq_charFeed parse (ReaderState.mk init []) chunks.flatten (by simp)]

/-- C10: the client store's sendMessage is a guarded no-op: when the trimmed
input is empty or a request is already in flight, it returns before calling
set or fetch, so messages, steps and isLoading are untouched and no request
is issued. -/
theorem sendMessage_guard_noop (st : ChatStoreState) (uid1 uid2 : String)
    (h : jsTrim st.input = "" ∨ st.isLoading = true) :
    sendMessageStart st uid1 uid2 = none := by
  rcases h with h | h <;> simp [sendMessageStart, h]

/-- Witness for C10: an in-flight request, and an all-whitespace input, are
both rejected. -/
theorem sendMessage_guard_noop_witness :
    sendMessageStart (ChatStoreState.mk [] [] true "hello") "u1" "u2" = none ∧
    sendMessageStart (ChatStoreState.mk [] [] false "   ") "u1" "u2" = none := by
  constructor
  · exact sendMessage_guard_noop (ChatStoreState.mk [] [] true "hello") "u1" "u2"
      (Or.inr rfl)
  · exact sendMessage_guard_noop (ChatStoreState.mk [] [] false "   ") "u1" "u2"
      (Or.inl (by decide))

end EnterpriseAnswer

